import Mathlib

/-!
Verification of the dual-backed persistence layer and the collection
handlers of the character-backend service (`src/server.js`).

The JSON contents of the data files are modelled by the inductive `JVal`
(a parsed JSON value; `JSON.parse ∘ JSON.stringify` is the identity on
such values, so serialization is elided).  The world visible to one
load/save call is an `Env` (credential flag, remote file content, local
file content); I/O failures of the individual network/filesystem steps
are supplied by a failure oracle `Ops`, one flag per fallible primitive,
so that every catch/fall-through path of the source is represented.
Functions that can throw return `Except Unit`.
-/

/-- A parsed JSON value (the content of one of the `data/*.json` files). -/
inductive JVal where
  | null : JVal
  | bool : Bool → JVal
  | num : Int → JVal
  | str : String → JVal
  | arr : List JVal → JVal
  | obj : List (String × JVal) → JVal

/-- World state seen by the persistence layer for one collection:
`token` models the presence of `GITHUB_TOKEN`, `remote` the content of the
file in the GitHub repository (`none` = 404), `localFile` the content of
the on-disk JSON file (`none` = missing). -/
structure Env where
  token : Bool
  remote : Option JVal
  localFile : Option JVal

/-- Failure oracle for one call into the persistence layer.  Each flag
says whether the corresponding I/O primitive fails during that call:
`getFails` a non-404 error of the remote content GET, `cacheWriteFails`
the local cache refresh write inside load, `localWriteFails` the
mkdir/writeFile pair used by save and by default seeding,
`shaGetFails` a non-404 error of the revision (sha) fetch inside commit,
`putFails` the remote contents PUT. -/
structure Ops where
  getFails : Bool
  cacheWriteFails : Bool
  localWriteFails : Bool
  shaGetFails : Bool
  putFails : Bool

/-- `commitToGitHub` (src/server.js:70-123): without a token it logs and
returns; otherwise it fetches the current sha (a 404 is tolerated, any
other failure is rethrown by the outer catch), then PUTs the new content
(failure rethrown).  On success the remote file now holds `content`. -/
def commitToGitHub (env : Env) (ops : Ops) (content : JVal) : Except Unit Env :=
  if env.token = false then .ok env
  else if ops.shaGetFails then .error ()
  else if ops.putFails then .error ()
  else .ok { env with remote := some content }

/-- Generic shape of the four `load*` functions
(src/server.js:126-171, 201-239, 445-479, 505-539), parameterized by the
collection's default value and by whether the local-miss branch seeds the
default to disk (`true` only for `loadProjects`).  With a token it tries
the remote GET first; on success it decodes, refreshes the local cache
(a failure here is caught by the surrounding try and falls through to the
local branch) and returns the decoded value.  On 404 or any other remote
error it falls through to the local file; on a local miss it returns the
default, for projects also writing it to disk (where a write failure
propagates out of the catch block). -/
def loadG (dflt : JVal) (seed : Bool) (env : Env) (ops : Ops) :
    Except Unit (JVal × Env) :=
  let localPart : Except Unit (JVal × Env) :=
    match env.localFile with
    | some w => .ok (w, env)
    | none =>
      if seed then
        if ops.localWriteFails then .error ()
        else .ok (dflt, { env with localFile := some dflt })
      else .ok (dflt, env)
  if env.token then
    match env.remote with
    | some v =>
      if ops.getFails then localPart
      else if ops.cacheWriteFails then localPart
      else .ok (v, { env with localFile := some v })
    | none => localPart
  else localPart

/-- Generic shape of the four `save*` functions
(src/server.js:174-189, 242-257, 481-494, 541-554): always write the
local file first (a failure propagates to the caller), then, when a token
is configured, try `commitToGitHub` and swallow any error it throws. -/
def saveG (env : Env) (ops : Ops) (v : JVal) : Except Unit Env :=
  if ops.localWriteFails then .error ()
  else
    let env1 : Env := { env with localFile := some v }
    if env1.token then
      match commitToGitHub env1 ops v with
      | .ok env2 => .ok env2
      | .error _ => .ok env1
    else .ok env1

/-- The default projects list (src/server.js:162-165). -/
def defaultProjects : JVal :=
  .arr [.obj [("id", .str "proje-1"), ("name", .str "Örnek Proje 1")],
        .obj [("id", .str "proje-2"), ("name", .str "Örnek Proje 2")]]

/-- `loadProjects` (src/server.js:126-171): seeds the default on a local
miss. -/
def loadProjects : Env → Ops → Except Unit (JVal × Env) :=
  loadG defaultProjects true

/-- `loadCharacters` (src/server.js:201-239): returns `{}` on a local
miss without writing it. -/
def loadCharacters : Env → Ops → Except Unit (JVal × Env) :=
  loadG (.obj []) false

/-- `loadCharacterImages` (src/server.js:445-479): returns `{}` on a
local miss without writing it. -/
def loadCharacterImagesP : Env → Ops → Except Unit (JVal × Env) :=
  loadG (.obj []) false

/-- `loadUsers` (src/server.js:505-539): returns `[]` on a local miss
without writing it. -/
def loadUsersP : Env → Ops → Except Unit (JVal × Env) :=
  loadG (.arr []) false

/-- `saveProjects` (src/server.js:174-189); `saveCharacters`,
`saveCharacterImages` and `saveUsers` have the identical structure,
differing only in the file path, which is factored into the per-collection
`Env`. -/
def saveProjects : Env → Ops → JVal → Except Unit Env :=
  saveG

/-! ## Collection handlers

The route handlers operate on the decoded, structured view of a
collection.  JavaScript objects used as string-keyed dictionaries
(`allImages`, `allCharacters`) are modelled as insertion-ordered
association lists with the JS property get/set semantics below. -/

/-- JS property read `m[k]` (first matching key, `none` = `undefined`). -/
def jsGet {β : Type} (m : List (String × β)) (k : String) : Option β :=
  match m with
  | [] => none
  | (k2, v) :: rest => if k2 = k then some v else jsGet rest k

/-- JS property write `m[k] = v`: updates the existing key in place,
otherwise appends the new key. -/
def jsSet {β : Type} (m : List (String × β)) (k : String) (v : β) : List (String × β) :=
  match m with
  | [] => [(k, v)]
  | (k2, v2) :: rest => if k2 = k then (k, v) :: rest else (k2, v2) :: jsSet rest k v

/-- JS `String.prototype.trim`: strip leading and trailing whitespace. -/
def jsTrim (s : String) : String :=
  ⟨((s.data.dropWhile Char.isWhitespace).reverse.dropWhile Char.isWhitespace).reverse⟩

/-- JS `Array.prototype.findIndex` (as an `Option`al index). -/
def findIndex {α : Type} (p : α → Bool) : List α → Option Nat
  | [] => none
  | a :: l => if p a then some 0 else (findIndex p l).map (· + 1)

/-- An HTTP handler outcome: `ok` is `res.json(payload)` (status 200),
`err c m` is `res.status(c).json({error: m})`. -/
inductive HResp (α : Type) where
  | ok : α → HResp α
  | err : Nat → String → HResp α
deriving DecidableEq

/-- A stored character image (src/server.js:593-606).  ISO timestamp
strings are abstracted to their epoch-milliseconds value (`Nat`), which
has the same ordering; optional fields that a record may lack are
`Option`. -/
structure Image where
  id : String
  characterId : String
  url : String
  fileName : String
  title : String
  description : String
  positivePrompt : Option String
  negativePrompt : Option String
  tags : List String
  orderIndex : Option Int
  createdAt : Option Nat
  createdByUserId : String
  updatedAt : Option Nat
  defaultImageId : Option String
deriving DecidableEq

/-- The reorder comparator's sort key `a.orderIndex || 0`
(src/server.js:680). -/
def jsOrd (img : Image) : Int := img.orderIndex.getD 0

/-- The PATCH-reorder sort order: `(a, b) => (a.orderIndex || 0) -
(b.orderIndex || 0)` places `a` no later than `b` iff the comparator is
`≤ 0`.  JS `Array.prototype.sort` is stable, and `List.insertionSort`
with this reflexive total preorder is the (unique) stable sort for it. -/
def imgLe (a b : Image) : Prop := jsOrd a ≤ jsOrd b

instance : DecidableRel imgLe :=
  fun a b => inferInstanceAs (Decidable (jsOrd a ≤ jsOrd b))

instance : IsTotal Image imgLe := ⟨fun a b => le_total (jsOrd a) (jsOrd b)⟩

instance : IsTrans Image imgLe := ⟨fun _ _ _ h1 h2 => le_trans h1 h2⟩

/-- GET-images sort key `a.orderIndex !== undefined ? a.orderIndex :
999999` (src/server.js:566-567). -/
def getKey (img : Image) : Int := img.orderIndex.getD 999999

/-- GET-images tie-break key `new Date(a.createdAt || 0)`
(src/server.js:570). -/
def dateKey (img : Image) : Nat := img.createdAt.getD 0

/-- The GET-images comparator (src/server.js:565-571) as a total
preorder: order by `getKey`, ties broken by `createdAt`. -/
def getLe (a b : Image) : Prop :=
  getKey a < getKey b ∨ (getKey a = getKey b ∧ dateKey a ≤ dateKey b)

instance : DecidableRel getLe :=
  fun a b =>
    inferInstanceAs (Decidable (getKey a < getKey b ∨ (getKey a = getKey b ∧ dateKey a ≤ dateKey b)))

/-- The in-place update performed on a matched image during reorder:
`characterImages[i].orderIndex = index; characterImages[i].updatedAt =
...` (src/server.js:674-675). -/
def updImg (img : Image) (idx : Nat) (now : Nat) : Image :=
  { img with orderIndex := some (idx : Int), updatedAt := some now }

/-- One step of the reorder loop: `findIndex(img => img.id === imageId)`
followed by the in-place update of that first match, if any
(src/server.js:672-676). -/
def setOrderAt : List Image → String → Nat → Nat → List Image
  | [], _, _, _ => []
  | img :: rest, imageId, idx, now =>
    if img.id = imageId then updImg img idx now :: rest
    else img :: setOrderAt rest imageId idx now

/-- The full `imageIds.forEach((imageId, index) => ...)` loop
(src/server.js:671-677), threading the running index. -/
def assignOrderAux : List Image → List String → Nat → Nat → List Image
  | images, [], _, _ => images
  | images, imageId :: rest, idx, now =>
    assignOrderAux (setOrderAt images imageId idx now) rest (idx + 1) now

/-- The cumulative effect of the reorder loop on one image whose id is
unique in the stored list: each loop step either updates it (when its id
is the step's id) or leaves it alone. -/
def applyIds : Image → List String → Nat → Nat → Image
  | img, [], _, _ => img
  | img, imageId :: rest, idx, now =>
    applyIds (if img.id = imageId then updImg img idx now else img) rest (idx + 1) now

/-- The reorder computation on one character's image list: assign the new
`orderIndex` values, then sort by `(a.orderIndex || 0)` ascending
(src/server.js:671-680). -/
def reorderImages (images : List Image) (imageIds : List String) (now : Nat) : List Image :=
  List.insertionSort imgLe (assignOrderAux images imageIds 0 now)

/-- The PATCH-reorder request body: either an `imageIds` array or
anything else (`Array.isArray` fails). -/
inductive ReorderBody where
  | ids : List String → ReorderBody
  | nonArray : ReorderBody

/-- `PATCH /api/characters/:characterId/images/reorder`
(src/server.js:658-690), acting on the loaded images map and returning
the response and the map passed to `saveCharacterImages`. -/
def reorderHandler (allImages : List (String × List Image)) (cid : String)
    (body : ReorderBody) (now : Nat) :
    HResp (List Image) × List (String × List Image) :=
  match body with
  | .nonArray => (.err 400 "imageIds bir array olmalı", allImages)
  | .ids imageIds =>
    let characterImages := (jsGet allImages cid).getD []
    let sorted := reorderImages characterImages imageIds now
    (.ok sorted, jsSet allImages cid sorted)

/-- `GET /api/characters/:characterId/images` (src/server.js:558-578):
returns the character's images sorted by the `getLe` comparator. -/
def getImagesHandler (allImages : List (String × List Image)) (cid : String) :
    List Image :=
  List.insertionSort getLe ((jsGet allImages cid).getD [])

/-- JS falsiness of an optional string field (`undefined`/`null` or the
empty string). -/
def falsy (o : Option String) : Bool :=
  match o with
  | none => true
  | some s => s == ""

/-- JS `x || d` for an optional string field. -/
def orElseStr (o : Option String) (d : String) : String :=
  match o with
  | none => d
  | some s => if s == "" then d else s

/-- JS `x || null` for an optional string field. -/
def orNull (o : Option String) : Option String :=
  match o with
  | none => none
  | some s => if s == "" then none else some s

/-- The `tags` body field: an array, a string, or absent. -/
inductive TagsField where
  | arr : List String → TagsField
  | str : String → TagsField
  | absent : TagsField

/-- `Array.isArray(tags) ? tags : (tags ? tags.split(",").map(t =>
t.trim()) : [])` (src/server.js:602). -/
def tagsOf (t : TagsField) : List String :=
  match t with
  | .arr l => l
  | .str s => if s == "" then [] else (s.splitOn ",").map jsTrim
  | .absent => []

/-- The body of `POST /api/characters/:characterId/images`
(src/server.js:584). -/
structure ImgBody where
  url : Option String
  fileName : Option String
  title : Option String
  description : Option String
  positivePrompt : Option String
  negativePrompt : Option String
  tags : TagsField
  createdByUserId : Option String

/-- The record built for a newly posted image (src/server.js:593-606);
`priorCount` is the character's image count before the insert and becomes
the new `orderIndex`. -/
def newImageOf (cid : String) (body : ImgBody) (newId : String) (now : Nat)
    (priorCount : Nat) : Image :=
  { id := newId
    characterId := cid
    url := body.url.getD ""
    fileName := orElseStr body.fileName ""
    title := jsTrim (body.title.getD "")
    description := orElseStr body.description ""
    positivePrompt := orNull body.positivePrompt
    negativePrompt := orNull body.negativePrompt
    tags := tagsOf body.tags
    orderIndex := some (priorCount : Int)
    createdAt := some now
    createdByUserId := orElseStr body.createdByUserId "system"
    updatedAt := none
    defaultImageId := none }

/-- `POST /api/characters/:characterId/images` (src/server.js:581-617):
validation (`!url || !title` → 400) happens before any load or save;
otherwise the new image is appended and the updated map saved. -/
def postImageHandler (allImages : List (String × List Image)) (cid : String)
    (body : ImgBody) (newId : String) (now : Nat) :
    HResp Image × List (String × List Image) :=
  if falsy body.url || falsy body.title then
    (.err 400 "URL ve başlık gerekli", allImages)
  else
    let characterImages := (jsGet allImages cid).getD []
    let newImage := newImageOf cid body newId now characterImages.length
    (.ok newImage, jsSet allImages cid (characterImages ++ [newImage]))

/-- Concrete image A of the spec's reorder scenario. -/
def imgA : Image :=
  ⟨"A", "char1", "http://a", "", "Image A", "", none, none, [], some 0, some 1,
    "system", none, none⟩

/-- Concrete image B of the spec's reorder scenario. -/
def imgB : Image :=
  ⟨"B", "char1", "http://b", "", "Image B", "", none, none, [], some 1, some 2,
    "system", none, none⟩

/-- Concrete image C of the spec's reorder scenario. -/
def imgC : Image :=
  ⟨"C", "char1", "http://c", "", "Image C", "", none, none, [], some 2, some 3,
    "system", none, none⟩

/-- A JSON object's field list: a character record is a freeform JS
object, read wholesale from `data/characters.json`. -/
abbrev JObj : Type := List (String × JVal)

/-- First-some choice, JS `x !== undefined ? x : y` at the lookup level. -/
def orOpt (x y : Option JVal) : Option JVal :=
  match x with
  | some v => some v
  | none => y

/-- JS object-literal spread `{...a, ...b}`: the fields of `b` are
assigned over `a` in order (an existing key keeps its position, a new key
is appended). -/
def mergeObj (a b : JObj) : JObj :=
  b.foldl (fun acc p => jsSet acc p.1 p.2) a

/-- The predicate of `projectCharacters.findIndex(c => c.id ===
characterId)` (src/server.js:399): the record's `id` property strictly
equals the path parameter. -/
def charIdIs (cid : String) (c : JObj) : Bool :=
  match jsGet c "id" with
  | some (.str s) => s == cid
  | _ => false

/-- `PUT /api/projects/:projectId/characters/:characterId`
(src/server.js:392-419): find the character, replace it in place by
`{...old, ...body, id: characterId}`, store the updated bucket and
respond with the updated record. -/
def putCharacterHandler (allCharacters : List (String × List JObj))
    (pid cid : String) (body : JObj) :
    HResp JObj × List (String × List JObj) :=
  let projectCharacters := (jsGet allCharacters pid).getD []
  match findIndex (charIdIs cid) projectCharacters with
  | none => (.err 404 "Karakter bulunamadı", allCharacters)
  | some i =>
    match projectCharacters[i]? with
    | none => (.err 404 "Karakter bulunamadı", allCharacters)
    | some old =>
      let updated := jsSet (mergeObj old body) "id" (.str cid)
      (.ok updated, jsSet allCharacters pid (projectCharacters.set i updated))

/-- A stored user record (src/server.js:755-761). -/
structure User where
  id : String
  username : String
  password : String
  role : String
  projects : List String
deriving DecidableEq

/-- The password-free view of a user sent in HTTP responses
(src/server.js:725-730, 767, 807). -/
structure SafeUser where
  id : String
  username : String
  role : String
  projects : List String
deriving DecidableEq

/-- Drop the password field (`const { password: _, ...safeUser }` and the
explicit field picking of `GET /api/users`). -/
def stripUser (u : User) : SafeUser :=
  ⟨u.id, u.username, u.role, u.projects⟩

/-- A `projects` body field: an array or any non-array value
(`Array.isArray` decides). -/
inductive ProjectsField where
  | arr : List String → ProjectsField
  | nonArray : ProjectsField

/-- `Array.isArray(projects) ? projects : []` (src/server.js:760, 801). -/
def projectsOf (p : ProjectsField) : List String :=
  match p with
  | .arr l => l
  | .nonArray => []

/-- The body of `POST /api/users` (src/server.js:742). -/
structure PostUserBody where
  username : Option String
  password : Option String
  role : Option String
  projects : ProjectsField

/-- The body of `PUT /api/users/:id` (src/server.js:780); every field is
optional and `undefined` is distinguished from a present falsy value. -/
structure PutUserBody where
  username : Option String
  password : Option String
  role : Option String
  projects : Option ProjectsField

/-- `GET /api/users` (src/server.js:720-736): returns the stored users
with passwords stripped. -/
def getUsersHandler (users : List User) : List SafeUser :=
  users.map stripUser

/-- `POST /api/users` (src/server.js:739-773): validate presence of
username/password/role, reject a username already used (the check
compares the RAW request username against stored usernames, while the
stored record gets the TRIMMED username), append the new user and respond
with the password-free record. -/
def postUserHandler (users : List User) (body : PostUserBody) (newId : String) :
    HResp SafeUser × List User :=
  match body.username, body.password, body.role with
  | some uname, some pw, some rl =>
    if uname == "" || pw == "" || rl == "" then
      (.err 400 "Kullanıcı adı, şifre ve rol gerekli", users)
    else if users.any (fun u => u.username == uname) then
      (.err 400 "Bu kullanıcı adı zaten kullanılıyor", users)
    else
      let newUser : User := ⟨newId, jsTrim uname, pw, rl, projectsOf body.projects⟩
      (.ok (stripUser newUser), users ++ [newUser])
  | _, _, _ => (.err 400 "Kullanıcı adı, şifre ve rol gerekli", users)

/-- `PUT /api/users/:id` (src/server.js:776-813): find the user by id,
reject when a truthy RAW username differs from the current one but is
already used by another user, shallow-merge the optional fields (username
trimmed on store), persist and respond with the password-free record. -/
def putUserHandler (users : List User) (uid : String) (body : PutUserBody) :
    HResp SafeUser × List User :=
  match findIndex (fun u => u.id == uid) users with
  | none => (.err 404 "Kullanıcı bulunamadı", users)
  | some i =>
    match users[i]? with
    | none => (.err 404 "Kullanıcı bulunamadı", users)
    | some old =>
      let dup : Bool :=
        match body.username with
        | some s =>
          s != "" && s != old.username
            && users.any (fun u => u.username == s && u.id != uid)
        | none => false
      if dup then (.err 400 "Bu kullanıcı adı zaten kullanılıyor", users)
      else
        let updated : User :=
          { id := old.id
            username :=
              match body.username with
              | some s => jsTrim s
              | none => old.username
            password := body.password.getD old.password
            role := body.role.getD old.role
            projects :=
              match body.projects with
              | some pf => projectsOf pf
              | none => old.projects }
        (.ok (stripUser updated), users.set i updated)

/-- Two users that agree on everything except possibly the password. -/
def pwEq (u v : User) : Prop :=
  u.id = v.id ∧ u.username = v.username ∧ u.role = v.role ∧ u.projects = v.projects

/-- C1: for every collection (any default/seeding mode) and every value
`v`, `save(v)` followed by `load()` with no intervening remote mutation
returns `v`, both with a configured credential (load reads back the
committed remote content) and without one (load reads the just-written
local file).  The hypotheses state the claim's scenario: the local write
succeeds and, when a credential is configured, the commit's revision
fetch and put succeed. -/
theorem save_load_roundtrip (dflt : JVal) (seed : Bool) (env : Env)
    (ops1 ops2 : Ops) (v : JVal)
    (h1 : ops1.localWriteFails = false)
    (h2 : env.token = true → ops1.shaGetFails = false ∧ ops1.putFails = false) :
    ∃ envS envL, saveG env ops1 v = .ok envS ∧
      loadG dflt seed envS ops2 = .ok (v, envL) := by
  cases env with
  | mk tok rem loc =>
    cases tok with
    | false =>
      refine ⟨⟨false, rem, some v⟩, ⟨false, rem, some v⟩, ?_, ?_⟩
      · simp [saveG, h1, commitToGitHub]
      · simp [loadG]
    | true =>
      obtain ⟨hs, hp⟩ := h2 rfl
      refine ⟨⟨true, some v, some v⟩, ⟨true, some v, some v⟩, ?_, ?_⟩
      · simp [saveG, h1, commitToGitHub, hs, hp]
      · cases hg : ops2.getFails <;> cases hc : ops2.cacheWriteFails <;>
          simp [loadG, hg, hc]

theorem save_load_roundtrip_witness :
    ∃ envS envL,
      saveG ⟨true, some (JVal.str "old"), none⟩ ⟨false, false, false, false, false⟩
          (JVal.str "v") = .ok envS ∧
      loadG defaultProjects true envS ⟨false, false, false, false, false⟩
          = .ok (JVal.str "v", envL) :=
  save_load_roundtrip defaultProjects true ⟨true, some (JVal.str "old"), none⟩
    ⟨false, false, false, false, false⟩ ⟨false, false, false, false, false⟩
    (JVal.str "v") rfl (fun _ => ⟨rfl, rfl⟩)

/-- C2: `load()` follows the fallback ordering remote → local → default:
a successful remote read wins over the local file; on remote `NotFound`
(or no credential) an existing local file is returned, not the default;
only when the local file is also missing is the default produced. -/
theorem load_fallback_ordering (dflt : JVal) (seed : Bool) (env : Env) (ops : Ops) :
    (∀ v, env.token = true → env.remote = some v → ops.getFails = false →
        ops.cacheWriteFails = false →
        loadG dflt seed env ops = .ok (v, { env with localFile := some v })) ∧
    (∀ w, (env.token = false ∨ env.remote = none) → env.localFile = some w →
        loadG dflt seed env ops = .ok (w, env)) ∧
    ((env.token = false ∨ env.remote = none) → env.localFile = none →
        ops.localWriteFails = false →
        ∃ env2, loadG dflt seed env ops = .ok (dflt, env2)) := by
  cases env with
  | mk tok rem loc =>
    refine ⟨?_, ?_, ?_⟩
    · rintro v htok hrem hg hc
      subst htok
      subst hrem
      simp [loadG, hg, hc]
    · rintro w h hloc
      subst hloc
      rcases h with h | h
      · subst h
        simp [loadG]
      · subst h
        cases tok <;> simp [loadG]
    · rintro h hloc hlw
      subst hloc
      rcases h with h | h
      · subst h
        cases seed with
        | false => exact ⟨⟨false, rem, none⟩, by simp [loadG]⟩
        | true => exact ⟨⟨false, rem, some dflt⟩, by simp [loadG, hlw]⟩
      · subst h
        cases tok with
        | false =>
          cases seed with
          | false => exact ⟨⟨false, none, none⟩, by simp [loadG]⟩
          | true => exact ⟨⟨false, none, some dflt⟩, by simp [loadG, hlw]⟩
        | true =>
          cases seed with
          | false => exact ⟨⟨true, none, none⟩, by simp [loadG]⟩
          | true => exact ⟨⟨true, none, some dflt⟩, by simp [loadG, hlw]⟩

theorem load_fallback_ordering_witness :
    loadG (JVal.arr []) false ⟨false, none, some (JVal.str "w")⟩
        ⟨false, false, false, false, false⟩
      = .ok (JVal.str "w", ⟨false, none, some (JVal.str "w")⟩) :=
  (load_fallback_ordering (JVal.arr []) false ⟨false, none, some (JVal.str "w")⟩
      ⟨false, false, false, false, false⟩).2.1
    (JVal.str "w") (Or.inl rfl) rfl

/-- C3 counterexample: on a fresh environment (no credential, no remote,
no local file), `loadCharacters` returns the default `{}` but does NOT
write it to the local cache file — the resulting environment still has no
local file, contradicting the claim that every collection seeds its
default on a fresh load. -/
theorem fresh_load_characters_no_seed :
    loadCharacters ⟨false, none, none⟩ ⟨false, false, false, false, false⟩
      = .ok (JVal.obj [], ⟨false, none, none⟩) ∧
    (Env.mk false none none).localFile ≠ some (JVal.obj []) :=
  ⟨rfl, fun h => Option.noConfusion h⟩

/-- C3 (amended): on a fresh environment with no credential, `load()`
returns the collection's default, and a second `load()` without any save
returns the identical value; only the projects-style loader (seed = true)
writes the default to the local cache file — the characters, images and
users loaders (seed = false) return their default without seeding the
file. -/
theorem fresh_load_default (dflt : JVal) (ops1 ops2 : Ops)
    (h1 : ops1.localWriteFails = false) :
    (loadG dflt true ⟨false, none, none⟩ ops1
        = .ok (dflt, ⟨false, none, some dflt⟩) ∧
      loadG dflt true ⟨false, none, some dflt⟩ ops2
        = .ok (dflt, ⟨false, none, some dflt⟩)) ∧
    (loadG dflt false ⟨false, none, none⟩ ops1
        = .ok (dflt, ⟨false, none, none⟩) ∧
      loadG dflt false ⟨false, none, none⟩ ops2
        = .ok (dflt, ⟨false, none, none⟩)) := by
  refine ⟨⟨?_, rfl⟩, rfl, rfl⟩
  simp [loadG, h1]

theorem fresh_load_default_witness :
    (loadG (JVal.arr []) true ⟨false, none, none⟩ ⟨false, false, false, false, false⟩
        = .ok (JVal.arr [], ⟨false, none, some (JVal.arr [])⟩) ∧
      loadG (JVal.arr []) true ⟨false, none, some (JVal.arr [])⟩
          ⟨false, false, false, false, false⟩
        = .ok (JVal.arr [], ⟨false, none, some (JVal.arr [])⟩)) ∧
    (loadG (JVal.arr []) false ⟨false, none, none⟩ ⟨false, false, false, false, false⟩
        = .ok (JVal.arr [], ⟨false, none, none⟩) ∧
      loadG (JVal.arr []) false ⟨false, none, none⟩ ⟨false, false, false, false, false⟩
        = .ok (JVal.arr [], ⟨false, none, none⟩)) :=
  fresh_load_default (JVal.arr []) ⟨false, false, false, false, false⟩
    ⟨false, false, false, false, false⟩ rfl

/-- C4: whenever the local write succeeds, `save()` returns without
raising, for every combination of remote-step failures (missing
credential, failed revision fetch, failed put): the commit error is
caught inside `save` and never propagated. -/
theorem save_never_fails_on_remote_error (env : Env) (ops : Ops) (v : JVal)
    (h : ops.localWriteFails = false) :
    ∃ env2, saveG env ops v = .ok env2 := by
  cases env with
  | mk tok rem loc =>
    cases tok with
    | false => exact ⟨⟨false, rem, some v⟩, by simp [saveG, h, commitToGitHub]⟩
    | true =>
      cases hs : ops.shaGetFails with
      | true => exact ⟨⟨true, rem, some v⟩, by simp [saveG, h, commitToGitHub, hs]⟩
      | false =>
        cases hp : ops.putFails with
        | true => exact ⟨⟨true, rem, some v⟩, by simp [saveG, h, commitToGitHub, hs, hp]⟩
        | false => exact ⟨⟨true, some v, some v⟩, by simp [saveG, h, commitToGitHub, hs, hp]⟩

theorem save_never_fails_witness :
    ∃ env2,
      saveG ⟨true, some (JVal.str "old"), none⟩ ⟨false, false, false, true, true⟩
        (JVal.str "v") = .ok env2 :=
  save_never_fails_on_remote_error ⟨true, some (JVal.str "old"), none⟩
    ⟨false, false, false, true, true⟩ (JVal.str "v") rfl

/-- C6 counterexample: with a credential configured, the remote holding
`"remote"` and the local file holding `"stale"`, a failure of the
local-cache refresh write makes `loadProjects` fall through and return
the stale local value instead of the decoded remote value — the refresh
error DOES change `load()`'s result, contradicting the claim. -/
theorem load_refresh_failure_changes_result :
    loadProjects ⟨true, some (JVal.str "remote"), some (JVal.str "stale")⟩
        ⟨false, true, false, false, false⟩
      = .ok (JVal.str "stale",
          ⟨true, some (JVal.str "remote"), some (JVal.str "stale")⟩) ∧
    JVal.str "stale" ≠ JVal.str "remote" :=
  ⟨rfl, fun h => by injection h with h2; exact absurd h2 (by decide)⟩

/-- C6 (amended): with a credential configured and a successful
`remoteGet`, `load()` returns the decoded remote value and refreshes the
local cache provided the refresh write succeeds; if the refresh write
fails, the error is caught (not propagated) and `load()` falls back to
the local file, so its result may differ from the remote value. -/
theorem remote_load_refresh (dflt : JVal) (seed : Bool) (env : Env) (ops : Ops)
    (v : JVal) (htok : env.token = true) (hrem : env.remote = some v)
    (hget : ops.getFails = false) :
    (ops.cacheWriteFails = false →
        loadG dflt seed env ops = .ok (v, { env with localFile := some v })) ∧
    (ops.cacheWriteFails = true → ∀ w, env.localFile = some w →
        loadG dflt seed env ops = .ok (w, env)) := by
  cases env with
  | mk tok rem loc =>
    cases htok
    cases hrem
    refine ⟨?_, ?_⟩
    · intro hc
      simp [loadG, hget, hc]
    · rintro hc w hloc
      subst hloc
      simp [loadG, hget, hc]

theorem remote_load_refresh_witness :
    loadG defaultProjects true ⟨true, some (JVal.str "r"), some (JVal.str "l")⟩
        ⟨false, true, false, false, false⟩
      = .ok (JVal.str "l", ⟨true, some (JVal.str "r"), some (JVal.str "l")⟩) :=
  (remote_load_refresh defaultProjects true
      ⟨true, some (JVal.str "r"), some (JVal.str "l")⟩
      ⟨false, true, false, false, false⟩ (JVal.str "r") rfl rfl rfl).2
    rfl (JVal.str "l") rfl

/-- A list member sits at some position. -/
theorem exists_getElem?_of_mem {α : Type} {l : List α} {a : α} (h : a ∈ l) :
    ∃ k : Nat, l[k]? = some a := by
  obtain ⟨k, hk, he⟩ := List.mem_iff_getElem.mp h
  exact ⟨k, by rw [List.getElem?_eq_getElem hk, he]⟩

/-- `setOrderAt` never changes the ids of the stored images. -/
theorem setOrderAt_map_id (l : List Image) (x : String) (i now : Nat) :
    (setOrderAt l x i now).map Image.id = l.map Image.id := by
  induction l with
  | nil => rfl
  | cons hd tl ih =>
    by_cases h : hd.id = x
    · simp [setOrderAt, h, updImg]
    · simp [setOrderAt, h, ih]

/-- Positional effect of one reorder-loop step when the stored ids are
pairwise distinct: the image at position `k` is updated exactly when its
id is the step's id. -/
theorem setOrderAt_getElem? (l : List Image) :
    ∀ (x : String) (i now : Nat), (l.map Image.id).Nodup →
      ∀ (k : Nat) (img : Image), l[k]? = some img →
        (setOrderAt l x i now)[k]?
          = some (if img.id = x then updImg img i now else img) := by
  induction l with
  | nil => intro x i now _ k img hk; simp at hk
  | cons hd tl ih =>
    intro x i now hnd k img hk
    rw [List.map_cons, List.nodup_cons] at hnd
    cases k with
    | zero =>
      rw [List.getElem?_cons_zero] at hk
      injection hk with hk
      subst hk
      by_cases h : hd.id = x
      · simp [setOrderAt, h]
      · simp [setOrderAt, h]
    | succ k =>
      rw [List.getElem?_cons_succ] at hk
      have hmem : img ∈ tl := List.getElem?_mem hk
      by_cases h : hd.id = x
      · have hne : ¬(img.id = x) := by
          intro he
          have : hd.id ∈ tl.map Image.id := by
            rw [h, ← he]
            exact List.mem_map_of_mem Image.id hmem
          exact hnd.1 this
        simp [setOrderAt, h, List.getElem?_cons_succ, hk, hne]
      · simp only [setOrderAt, if_neg h, List.getElem?_cons_succ]
        exact ih x i now hnd.2 k img hk

/-- An image whose id is not mentioned in the requested ordering is left
untouched by the reorder loop. -/
theorem applyIds_of_not_mem (ids : List String) :
    ∀ (img : Image) (s now : Nat), img.id ∉ ids →
      applyIds img ids s now = img := by
  induction ids with
  | nil => intro img s now _; rfl
  | cons x rest ih =>
    intro img s now h
    rw [List.mem_cons] at h
    push_neg at h
    simp only [applyIds, if_neg h.1]
    exact ih img (s + 1) now h.2

/-- An image whose id sits at position `j` of a duplicate-free requested
ordering gets `orderIndex` `s + j` (the loop starts counting at `s`). -/
theorem applyIds_of_getElem? (ids : List String) :
    ∀ (img : Image) (s now j : Nat), ids.Nodup → ids[j]? = some img.id →
      applyIds img ids s now
        = { img with orderIndex := some ((s + j : Nat) : Int),
                     updatedAt := some now } := by
  induction ids with
  | nil => intro img s now j _ hj; simp at hj
  | cons x rest ih =>
    intro img s now j hnd hj
    rw [List.nodup_cons] at hnd
    cases j with
    | zero =>
      rw [List.getElem?_cons_zero] at hj
      injection hj with hj
      have hx : img.id = x := hj.symm
      simp only [applyIds, if_pos hx]
      rw [applyIds_of_not_mem rest (updImg img s now) (s + 1) now]
      · simp [updImg]
      · show img.id ∉ rest
        rw [hx]
        exact hnd.1
    | succ j =>
      rw [List.getElem?_cons_succ] at hj
      have hmem : img.id ∈ rest := List.getElem?_mem hj
      have hx : ¬(img.id = x) := fun he => hnd.1 (he ▸ hmem)
      simp only [applyIds, if_neg hx]
      rw [ih img (s + 1) now j hnd.2 hj]
      have harith : s + 1 + j = s + (j + 1) := by omega
      rw [harith]

/-- Positional effect of the whole reorder loop: position `k` ends up
holding the cumulative update `applyIds` of its original image. -/
theorem assignOrderAux_getElem? (ids : List String) :
    ∀ (images : List Image) (s now : Nat), (images.map Image.id).Nodup →
      ∀ (k : Nat) (img : Image), images[k]? = some img →
        (assignOrderAux images ids s now)[k]? = some (applyIds img ids s now) := by
  induction ids with
  | nil => intro images s now _ k img hk; simpa [assignOrderAux, applyIds] using hk
  | cons x rest ih =>
    intro images s now hnd k img hk
    have h1 := setOrderAt_getElem? images x s now hnd k img hk
    have hnd2 : ((setOrderAt images x s now).map Image.id).Nodup := by
      rw [setOrderAt_map_id]
      exact hnd
    have h2 := ih (setOrderAt images x s now) (s + 1) now hnd2 k
      (if img.id = x then updImg img s now else img) h1
    simpa [assignOrderAux, applyIds] using h2

/-- C5: the reorder operation assigns each mentioned image the 0-based
position of its id in `orderedIds`, leaves unmentioned images with their
previous `orderIndex`, and persists a sequence sorted ascending by the
order key; and concretely, for a character with images `[A,B,C]`,
`reorder(["C","A","B"])` responds with and stores `[C,A,B]` with
`orderIndex` values `[0,1,2]`, which a subsequent GET of the character's
images returns in that order. -/
theorem reorder_images_spec (images : List Image) (ids : List String) (now : Nat)
    (hids : ids.Nodup) (himgs : (images.map Image.id).Nodup) :
    (∀ img ∈ images, img.id ∉ ids → img ∈ reorderImages images ids now) ∧
    (∀ img ∈ images, ∀ j : Nat, ids[j]? = some img.id →
        { img with orderIndex := some (j : Int), updatedAt := some now }
          ∈ reorderImages images ids now) ∧
    List.Sorted imgLe (reorderImages images ids now) ∧
    reorderHandler [("char1", [imgA, imgB, imgC])] "char1"
        (.ids ["C", "A", "B"]) 99
      = (.ok [{ imgC with orderIndex := some 0, updatedAt := some 99 },
              { imgA with orderIndex := some 1, updatedAt := some 99 },
              { imgB with orderIndex := some 2, updatedAt := some 99 }],
          [("char1",
            [{ imgC with orderIndex := some 0, updatedAt := some 99 },
             { imgA with orderIndex := some 1, updatedAt := some 99 },
             { imgB with orderIndex := some 2, updatedAt := some 99 }])]) ∧
    getImagesHandler
        [("char1",
          [{ imgC with orderIndex := some 0, updatedAt := some 99 },
           { imgA with orderIndex := some 1, updatedAt := some 99 },
           { imgB with orderIndex := some 2, updatedAt := some 99 }])] "char1"
      = [{ imgC with orderIndex := some 0, updatedAt := some 99 },
         { imgA with orderIndex := some 1, updatedAt := some 99 },
         { imgB with orderIndex := some 2, updatedAt := some 99 }] := by
  refine ⟨?_, ?_, List.sorted_insertionSort imgLe _, by decide, by decide⟩
  · intro img hm hnot
    obtain ⟨k, hk⟩ := exists_getElem?_of_mem hm
    have h1 := assignOrderAux_getElem? ids images 0 now himgs k img hk
    rw [applyIds_of_not_mem ids img 0 now hnot] at h1
    have h2 : img ∈ assignOrderAux images ids 0 now := List.getElem?_mem h1
    simpa [reorderImages] using h2
  · intro img hm j hj
    obtain ⟨k, hk⟩ := exists_getElem?_of_mem hm
    have h1 := assignOrderAux_getElem? ids images 0 now himgs k img hk
    rw [applyIds_of_getElem? ids img 0 now j hids hj] at h1
    simp only [Nat.zero_add] at h1
    have h2 := List.getElem?_mem h1
    simpa [reorderImages] using h2

theorem reorder_images_spec_witness :
    { imgC with orderIndex := some (0 : Int), updatedAt := some 99 }
      ∈ reorderImages [imgA, imgB, imgC] ["C", "A", "B"] 99 :=
  (reorder_images_spec [imgA, imgB, imgC] ["C", "A", "B"] 99
      (by decide) (by decide)).2.1 imgC (by decide) 0 rfl

/-- C7: `POST /api/characters/:characterId/images` with a falsy `url` or
`title` responds 400 with a validation error, leaving the stored map
untouched; with both present it responds 200 with a new image whose
`orderIndex` equals the character's prior image count. -/
theorem post_image_spec (allImages : List (String × List Image)) (cid : String)
    (body : ImgBody) (newId : String) (now : Nat) :
    ((falsy body.url || falsy body.title) = true →
        postImageHandler allImages cid body newId now
          = (.err 400 "URL ve başlık gerekli", allImages)) ∧
    ((falsy body.url || falsy body.title) = false →
        postImageHandler allImages cid body newId now
          = (.ok (newImageOf cid body newId now
                ((jsGet allImages cid).getD []).length),
              jsSet allImages cid ((jsGet allImages cid).getD []
                ++ [newImageOf cid body newId now
                      ((jsGet allImages cid).getD []).length])) ∧
        (newImageOf cid body newId now
            ((jsGet allImages cid).getD []).length).orderIndex
          = some (((jsGet allImages cid).getD []).length : Int)) := by
  constructor
  · intro h
    simp [postImageHandler, h]
  · intro h
    exact ⟨by simp [postImageHandler, h], rfl⟩

theorem post_image_spec_witness :
    postImageHandler [] "c1"
        ⟨some "http://x", none, none, none, none, none, .absent, none⟩ "img-1" 5
      = (.err 400 "URL ve başlık gerekli", []) ∧
    (newImageOf "c1"
        ⟨some "http://x", none, some "T", none, none, none, .absent, none⟩
        "img-2" 6 ((jsGet [("c1", [imgA])] "c1").getD []).length).orderIndex
      = some (1 : Int) :=
  ⟨(post_image_spec [] "c1"
      ⟨some "http://x", none, none, none, none, none, .absent, none⟩ "img-1" 5).1 rfl,
   ((post_image_spec [("c1", [imgA])] "c1"
      ⟨some "http://x", none, some "T", none, none, none, .absent, none⟩
      "img-2" 6).2 rfl).2⟩

/-- Reading back the key just assigned yields the assigned value. -/
theorem jsGet_jsSet_self {β : Type} (m : List (String × β)) (k : String) (v : β) :
    jsGet (jsSet m k v) k = some v := by
  induction m with
  | nil => simp [jsGet, jsSet]
  | cons p rest ih =>
    obtain ⟨k2, v2⟩ := p
    by_cases h : k2 = k
    · simp [jsSet, h, jsGet]
    · simp [jsSet, h, jsGet, ih]

/-- Assigning one key leaves every other key's value unchanged. -/
theorem jsGet_jsSet_ne {β : Type} (m : List (String × β)) (k k2 : String) (v : β)
    (h : k ≠ k2) : jsGet (jsSet m k v) k2 = jsGet m k2 := by
  induction m with
  | nil => simp [jsGet, jsSet, h]
  | cons p rest ih =>
    obtain ⟨ka, va⟩ := p
    by_cases h2 : ka = k
    · subst h2
      simp [jsSet, jsGet, h]
    · simp [jsSet, h2, jsGet, ih]

/-- A key that is absent from the field list reads as `undefined`. -/
theorem jsGet_eq_none {β : Type} (m : List (String × β)) (k : String)
    (h : k ∉ m.map Prod.fst) : jsGet m k = none := by
  induction m with
  | nil => rfl
  | cons p rest ih =>
    obtain ⟨ka, va⟩ := p
    rw [List.map_cons, List.mem_cons] at h
    push_neg at h
    have hne : ¬(ka = k) := fun hh => h.1 hh.symm
    simp [jsGet, hne, ih h.2]

/-- Lookup through a JS spread merge: a key present in `b` (which, coming
from a parsed JSON object, has pairwise-distinct keys) wins, any other
key falls back to `a`. -/
theorem jsGet_mergeObj (b : JObj) :
    ∀ (a : JObj), (b.map Prod.fst).Nodup →
      ∀ k, jsGet (mergeObj a b) k = orOpt (jsGet b k) (jsGet a k) := by
  induction b with
  | nil =>
    intro a _ k
    simp [mergeObj, jsGet, orOpt]
  | cons p rest ih =>
    intro a hnd k
    obtain ⟨kb, vb⟩ := p
    rw [List.map_cons, List.nodup_cons] at hnd
    have hstep : mergeObj a ((kb, vb) :: rest) = mergeObj (jsSet a kb vb) rest := rfl
    rw [hstep, ih (jsSet a kb vb) hnd.2 k]
    by_cases h : kb = k
    · subst h
      rw [jsGet_eq_none rest kb hnd.1, jsGet_jsSet_self]
      simp [jsGet, orOpt]
    · rw [jsGet_jsSet_ne a kb k vb h]
      simp [jsGet, h]

/-- C8: a PUT of an existing character stores, at the character's
position, the shallow merge of the request body over the previous record
with the identity field forced back to the path's `characterId` (so `id`
is never overwritten, even by a body carrying an `id`); every other key
reads as the body's value if present, else the old value, and every other
record in the bucket is untouched. -/
theorem put_character_spec (allCharacters : List (String × List JObj))
    (pid cid : String) (body : JObj) (i : Nat) (old : JObj)
    (hnd : (body.map Prod.fst).Nodup)
    (hidx : findIndex (charIdIs cid) ((jsGet allCharacters pid).getD []) = some i)
    (hold : ((jsGet allCharacters pid).getD [])[i]? = some old) :
    putCharacterHandler allCharacters pid cid body
      = (.ok (jsSet (mergeObj old body) "id" (.str cid)),
          jsSet allCharacters pid
            (((jsGet allCharacters pid).getD []).set i
              (jsSet (mergeObj old body) "id" (.str cid)))) ∧
    jsGet (jsSet (mergeObj old body) "id" (.str cid)) "id" = some (.str cid) ∧
    (∀ k, k ≠ "id" →
        jsGet (jsSet (mergeObj old body) "id" (.str cid)) k
          = orOpt (jsGet body k) (jsGet old k)) ∧
    (∀ j, j ≠ i →
        (((jsGet allCharacters pid).getD []).set i
            (jsSet (mergeObj old body) "id" (.str cid)))[j]?
          = ((jsGet allCharacters pid).getD [])[j]?) := by
  refine ⟨?_, jsGet_jsSet_self _ _ _, ?_, ?_⟩
  · simp [putCharacterHandler, hidx, hold]
  · intro k hk
    rw [jsGet_jsSet_ne (mergeObj old body) "id" k (.str cid) (Ne.symm hk)]
    exact jsGet_mergeObj body old hnd k
  · intro j hj
    exact List.getElem?_set_ne (fun he => hj he.symm)

theorem put_character_spec_witness :
    jsGet (jsSet (mergeObj [("id", JVal.str "c1"), ("firstName", JVal.str "Ada")]
        [("id", JVal.str "HACK"), ("lastName", JVal.str "L")]) "id" (JVal.str "c1"))
        "id"
      = some (JVal.str "c1") :=
  (put_character_spec
      [("p1", [[("id", JVal.str "c1"), ("firstName", JVal.str "Ada")]])]
      "p1" "c1" [("id", JVal.str "HACK"), ("lastName", JVal.str "L")] 0
      [("id", JVal.str "c1"), ("firstName", JVal.str "Ada")]
      (by decide) rfl rfl).2.1

/-- C9: the duplicate-username guard of `POST /api/users` compares the
RAW request username against stored usernames but stores the TRIMMED
one, so posting `"alice "` while `"alice"` exists passes the guard and
creates a second user named `"alice"`: the handler responds 200 and the
saved collection has duplicate usernames, contradicting the uniqueness
invariant the guard exists to enforce. -/
theorem post_user_trim_collision :
    (postUserHandler [⟨"u1", "alice", "pw", "admin", []⟩]
        ⟨some "alice ", some "p", some "user", .nonArray⟩ "u2").1
      = .ok ⟨"u2", "alice", "user", []⟩ ∧
    ((postUserHandler [⟨"u1", "alice", "pw", "admin", []⟩]
        ⟨some "alice ", some "p", some "user", .nonArray⟩ "u2").2).map User.username
      = ["alice", "alice"] ∧
    ¬ (((postUserHandler [⟨"u1", "alice", "pw", "admin", []⟩]
        ⟨some "alice ", some "p", some "user", .nonArray⟩ "u2").2).map
          User.username).Nodup := by
  refine ⟨rfl, rfl, by decide⟩

/-- Users related by `pwEq` strip to the same public record. -/
theorem stripUser_congr {u v : User} (h : pwEq u v) : stripUser u = stripUser v := by
  obtain ⟨h1, h2, h3, h4⟩ := h
  simp [stripUser, h1, h2, h3, h4]

/-- Pointwise `pwEq` lists strip to the same public list. -/
theorem forall₂_map_stripUser {us1 us2 : List User}
    (h : List.Forall₂ pwEq us1 us2) : us1.map stripUser = us2.map stripUser := by
  induction h with
  | nil => rfl
  | cons hab _ ih => simp [List.map_cons, stripUser_congr hab, ih]

/-- `any` with a password-blind predicate cannot tell `pwEq` lists
apart. -/
theorem forall₂_any {us1 us2 : List User} (h : List.Forall₂ pwEq us1 us2)
    (f : User → Bool) (hf : ∀ a b, pwEq a b → f a = f b) :
    us1.any f = us2.any f := by
  induction h with
  | nil => rfl
  | cons hab _ ih => simp [List.any_cons, hf _ _ hab, ih]

/-- `findIndex` with a password-blind predicate cannot tell `pwEq` lists
apart. -/
theorem forall₂_findIndex {us1 us2 : List User} (h : List.Forall₂ pwEq us1 us2)
    (f : User → Bool) (hf : ∀ a b, pwEq a b → f a = f b) :
    findIndex f us1 = findIndex f us2 := by
  induction h with
  | nil => rfl
  | cons hab _ ih => simp [findIndex, hf _ _ hab, ih]

/-- Positions of `pwEq` lists hold `pwEq`-related users. -/
theorem forall₂_getElem? {us1 us2 : List User} (h : List.Forall₂ pwEq us1 us2) :
    ∀ i : Nat, (us1[i]? = none ∧ us2[i]? = none) ∨
      (∃ a b, us1[i]? = some a ∧ us2[i]? = some b ∧ pwEq a b) := by
  induction h with
  | nil => intro i; left; simp
  | cons hab htl ih =>
    intro i
    cases i with
    | zero =>
      right
      exact ⟨_, _, List.getElem?_cons_zero, List.getElem?_cons_zero, hab⟩
    | succ i => simpa [List.getElem?_cons_succ] using ih i

/-- C10: the user-facing responses of `GET /api/users`, `POST /api/users`
and `PUT /api/users/:id` are identical for any two stored user
collections that agree on everything except password values — the
password is stripped before responding and never influences a
response. -/
theorem user_responses_ignore_passwords (us1 us2 : List User)
    (h : List.Forall₂ pwEq us1 us2) :
    getUsersHandler us1 = getUsersHandler us2 ∧
    (∀ (body : PostUserBody) (newId : String),
        (postUserHandler us1 body newId).1 = (postUserHandler us2 body newId).1) ∧
    (∀ (uid : String) (body : PutUserBody),
        (putUserHandler us1 uid body).1 = (putUserHandler us2 uid body).1) := by
  refine ⟨forall₂_map_stripUser h, ?_, ?_⟩
  · intro body newId
    obtain ⟨bu, bp, br, bpr⟩ := body
    cases bu with
    | none => rfl
    | some uname =>
      cases bp with
      | none => rfl
      | some pw =>
        cases br with
        | none => rfl
        | some rl =>
          have hany : us1.any (fun u => u.username == uname)
              = us2.any (fun u => u.username == uname) :=
            forall₂_any h _ (fun a b hab => by rw [hab.2.1])
          simp only [postUserHandler]
          rw [hany]
          cases hc1 : (uname == "" || pw == "" || rl == "") <;>
            cases hc2 : us2.any (fun u => u.username == uname) <;>
              simp [hc1, hc2]
  · intro uid body
    have hidx : findIndex (fun u => u.id == uid) us1
        = findIndex (fun u => u.id == uid) us2 :=
      forall₂_findIndex h _ (fun a b hab => by rw [hab.1])
    cases hi : findIndex (fun u => u.id == uid) us1 with
    | none =>
      have hi2 : findIndex (fun u => u.id == uid) us2 = none := by
        rw [← hidx]
        exact hi
      simp [putUserHandler, hi, hi2]
    | some i =>
      have hi2 : findIndex (fun u => u.id == uid) us2 = some i := by
        rw [← hidx]
        exact hi
      rcases forall₂_getElem? h i with ⟨h1, h2⟩ | ⟨a, b, h1, h2, hab⟩
      · simp [putUserHandler, hi, hi2, h1, h2]
      · obtain ⟨hid, hun, hrl, hpr⟩ := hab
        have hdup : (match body.username with
              | some s => s != "" && s != a.username
                  && us1.any (fun u => u.username == s && u.id != uid)
              | none => false)
            = (match body.username with
              | some s => s != "" && s != b.username
                  && us2.any (fun u => u.username == s && u.id != uid)
              | none => false) := by
          cases hbu : body.username with
          | none => rfl
          | some s =>
            have hany2 : us1.any (fun u => u.username == s && u.id != uid)
                = us2.any (fun u => u.username == s && u.id != uid) :=
              forall₂_any h _ (fun x y hxy => by rw [hxy.2.1, hxy.1])
            simp [hun, hany2]
        simp only [putUserHandler, hi, hi2, h1, h2]
        rw [hdup]
        cases hd : (match body.username with
            | some s => s != "" && s != b.username
                && us2.any (fun u => u.username == s && u.id != uid)
            | none => false) <;>
          simp [hd, stripUser, hid, hun, hrl, hpr]

theorem user_responses_ignore_passwords_witness :
    getUsersHandler [⟨"u1", "alice", "pw1", "admin", []⟩]
      = getUsersHandler [⟨"u1", "alice", "pw2", "admin", []⟩] :=
  (user_responses_ignore_passwords [⟨"u1", "alice", "pw1", "admin", []⟩]
      [⟨"u1", "alice", "pw2", "admin", []⟩]
      (List.Forall₂.cons ⟨rfl, rfl, rfl, rfl⟩ List.Forall₂.nil)).1
